import Mathlib

/-!
# Verification of `skbio.stats.ordination._canonical_correspondence_analysis.cca`

A shallow embedding of the canonical correspondence analysis routine
(`cca`) of scikit-bio, together with theorems settling the specification
claims about it.

Modelling conventions:

* Dense numeric tables are `List (List ℚ)` (a list of rows), mirroring the
  2-d numpy arrays of the source.  Exact rationals replace IEEE doubles;
  floating-point-only behaviour (NaN, rounding) is out of scope.
* The floating-point square root has no exact rational counterpart, so it
  is abstracted as a function parameter `NumericEnv.sqrt`; no claim settled
  here depends on its values.
* The numerical black boxes called by the source — `np.linalg.lstsq` and
  `np.linalg.svd` — are modelled by passing their outputs (`LinAlgOut`) as
  parameters; theorems that need properties of those outputs state them as
  hypotheses (descending non-negative singular values, reconstruction,
  normal equations), matching the documented contracts of the routines.
* The helpers `corr`, `svd_rank` and `scale` from `skbio.stats.ordination._utils`
  are not part of the sources; they are modelled from the spec (see the
  doc comments on `corr`, `svdRank` and `scaleTable`).
-/

/-- A dense numeric table, stored as a list of rows (numpy 2-d array). -/
abbrev QMat : Type := List (List ℚ)

/-- Dot product of two equally long vectors (rows). -/
def dotCol (a b : List ℚ) : ℚ := (List.zipWith (· * ·) a b).sum

/-- `mulT A Bt = A ⬝ Btᵀ`: entry `(i, j)` is the dot product of row `i` of `A`
with row `j` of `Bt`.  Used for numpy products of the form `A.dot(vt.T)`. -/
def mulT (A Bt : QMat) : QMat := A.map (fun ar => Bt.map (fun br => dotCol ar br))

/-- Transpose of a matrix with (externally known) column count `m`; numpy
arrays carry their shape, so `M.T` of an `(k, m)` array is the `(m, k)` array
of its columns.  `getD` is only exercised on well-shaped rows. -/
def transposeN (m : ℕ) (M : QMat) : QMat :=
  (List.range m).map (fun j => M.map (fun r => r.getD j 0))

/-- `matMulN m A B = A ⬝ B` where `B` has `m` columns. -/
def matMulN (m : ℕ) (A B : QMat) : QMat := mulT A (transposeN m B)

/-- numpy broadcast `w[:, None] * A`: scales row `i` of `A` by `w i`. -/
def rowScale (w : List ℚ) (A : QMat) : QMat :=
  List.zipWith (fun wi r => r.map (fun x => wi * x)) w A

/-- numpy broadcast `A * s` for a vector `s` of per-column factors:
multiplies column `j` of `A` by `s j`. -/
def colMul (A : QMat) (s : List ℚ) : QMat :=
  A.map (fun r => List.zipWith (· * ·) r s)

/-- numpy `np.hstack((A, B))`: rows are concatenated pairwise. -/
def hstack (A B : QMat) : QMat := List.zipWith (· ++ ·) A B

/-- Entrywise difference of two matrices. -/
def matSub (A B : QMat) : QMat :=
  List.zipWith (fun ra rb => List.zipWith (· - ·) ra rb) A B

/-- numpy column slice `M[:, :k]`. -/
def takeCols (k : ℕ) (A : QMat) : QMat := A.map (fun r => r.take k)

/-- Minimum of a list of rationals (`ndarray.min()`); numpy raises on an
empty array, which the embedding never exercises, so `0` is a junk default. -/
def listMin : List ℚ → ℚ
  | [] => 0
  | a :: r => r.foldl min a

/-- Maximum of a list of rationals (`ndarray.max(axis=1)` applied to one
row); `0` is a junk default for the empty row numpy would reject. -/
def rowMax : List ℚ → ℚ
  | [] => 0
  | a :: r => r.foldl max a

/-- `Y.min()` over all entries of the table. -/
def matMin (Y : QMat) : ℚ := listMin Y.flatten

/-- The four error conditions raised by the sanity-check block of `cca`
(source lines 107–123). -/
inductive CcaError : Type
  | rowCountMismatch
  | negativeAbundance
  | degenerateSampleRow
  | unsupportedScaling
deriving DecidableEq

/-- The parameter sanity checks of `cca` (source lines 107–123), in source
order: row-count mismatch, then a negative entry of `Y`, then a row of `Y`
whose maximum is `≤ 0`, then a scaling outside `{1, 2}`.  Returns the first
error raised, or `none` when every check passes. -/
def validate (Y X : QMat) (scaling : ℤ) : Option CcaError :=
  if X.length ≠ Y.length then some .rowCountMismatch
  else if matMin Y < 0 then some .negativeAbundance
  else if Y.any (fun r => decide (rowMax r ≤ 0)) then some .degenerateSampleRow
  else if scaling ≠ 1 ∧ scaling ≠ 2 then some .unsupportedScaling
  else none

section ValidationLemmas

/-- `foldl min` detects a value below any threshold. -/
theorem foldl_min_lt_iff (r : List ℚ) (a c : ℚ) :
    List.foldl min a r < c ↔ a < c ∨ ∃ x ∈ r, x < c := by
  induction r generalizing a with
  | nil => simp
  | cons b t ih =>
    simp only [List.foldl_cons, ih, min_lt_iff, List.mem_cons]
    constructor
    · rintro (( h | h ) | ⟨x, hx, hxc⟩)
      · exact Or.inl h
      · exact Or.inr ⟨b, Or.inl rfl, h⟩
      · exact Or.inr ⟨x, Or.inr hx, hxc⟩
    · rintro (h | ⟨x, (rfl | hx), hxc⟩)
      · exact Or.inl (Or.inl h)
      · exact Or.inl (Or.inr hxc)
      · exact Or.inr ⟨x, hx, hxc⟩

/-- `listMin l < 0` iff some entry of `l` is negative. -/
theorem listMin_neg_iff (l : List ℚ) : listMin l < 0 ↔ ∃ x ∈ l, x < 0 := by
  cases l with
  | nil => simp [listMin]
  | cons a r =>
    simp only [listMin, foldl_min_lt_iff, List.mem_cons]
    constructor
    · rintro (h | ⟨x, hx, hxc⟩)
      · exact ⟨a, Or.inl rfl, h⟩
      · exact ⟨x, Or.inr hx, hxc⟩
    · rintro ⟨x, (rfl | hx), hxc⟩
      · exact Or.inl hxc
      · exact Or.inr ⟨x, hx, hxc⟩

/-- `Y.min() < 0` iff some entry of some row of `Y` is negative. -/
theorem matMin_neg_iff (Y : QMat) : matMin Y < 0 ↔ ∃ r ∈ Y, ∃ v ∈ r, v < 0 := by
  simp only [matMin, listMin_neg_iff, List.mem_flatten]
  constructor
  · rintro ⟨x, ⟨r, hr, hx⟩, hneg⟩
    exact ⟨r, hr, x, hx, hneg⟩
  · rintro ⟨r, hr, x, hx, hneg⟩
    exact ⟨x, ⟨r, hr, hx⟩, hneg⟩

end ValidationLemmas

/-- Abstract numerical environment: the floating-point square root and the
rank tolerance.  Modelled from the spec: the tolerance of the effective-rank
determination is "scaled by the largest dimension and the machine epsilon",
both floating-point quantities, so it is abstracted as a rational parameter. -/
structure NumericEnv : Type where
  sqrt : ℚ → ℚ
  tol : ℚ

/-- The triple returned by `np.linalg.svd(M, full_matrices=False)`:
left singular vectors `u` (columns), singular values `s` (descending) and
right singular vectors `vt` (rows). -/
structure SVDOut : Type where
  u : QMat
  s : List ℚ
  vt : QMat
deriving DecidableEq

/-- Outputs of the numerical black boxes invoked by `cca`: the least-squares
coefficient matrix `B` of `np.linalg.lstsq(X_weighted, Q_bar)` and the two
singular value decompositions, of `Y_hat` (`fit`) and of `Y_res` (`res`). -/
structure LinAlgOut : Type where
  B : QMat
  fit : SVDOut
  res : SVDOut
deriving DecidableEq

/-- Number of columns of a table (numpy `shape[1]`). -/
def nColsOf (Y : QMat) : ℕ := (Y.headD []).length

/-- `Y.sum()`: grand total of all entries. -/
def grandTotal (Y : QMat) : ℚ := (Y.map List.sum).sum

/-- Step 1: `Q = Y / grand_total`, the relative-frequency (contingency)
table. -/
def relFreq (Y : QMat) : QMat := Y.map (fun r => r.map (fun v => v / grandTotal Y))

/-- `row_marginals = Q.sum(axis=1)`: the sample weights. -/
def rowMarginals (Y : QMat) : List ℚ := (relFreq Y).map List.sum

/-- Column sums of a table with `m` columns (`M.sum(axis=0)`). -/
def colSums (m : ℕ) (M : QMat) : List ℚ := (transposeN m M).map List.sum

/-- `column_marginals = Q.sum(axis=0)`: the feature weights. -/
def colMarginals (Y : QMat) : List ℚ := colSums (nColsOf Y) (relFreq Y)

/-- Formula 9.32: `Q_bar = (Q - expected) / sqrt(expected)` with
`expected = outer(row_marginals, column_marginals)`. -/
def qbar (env : NumericEnv) (Y : QMat) : QMat :=
  List.zipWith
    (fun ri qr =>
      List.zipWith (fun qx cj => (qx - ri * cj) / env.sqrt (ri * cj)) qr (colMarginals Y))
    (rowMarginals Y) (relFreq Y)

/-- Weighted mean of a column (`np.average(col, weights=w)`). -/
def wavg (w col : List ℚ) : ℚ := (List.zipWith (· * ·) w col).sum / w.sum

/-- Weighted population standard deviation of a column (`ddof = 0`). -/
def wstd (env : NumericEnv) (w col : List ℚ) : ℚ :=
  env.sqrt ((List.zipWith (fun wi x => wi * (x - wavg w col) ^ 2) w col).sum / w.sum)

/-- Modelled from the spec: `skbio.stats.ordination._utils.scale` is absent
from the sources.  Spec §4.1: "given a table and a weight vector over rows
..., center each column by its weighted mean and scale by its weighted
standard deviation, using a ... degrees-of-freedom offset, here fixed at 0".
`q` is the column count of `A`. -/
def scaleTable (env : NumericEnv) (w : List ℚ) (q : ℕ) (A : QMat) : QMat :=
  let cols := transposeN q A
  let ms := cols.map (wavg w)
  let sds := cols.map (wstd env w)
  A.map (fun r => List.zipWith (fun x (p : ℚ × ℚ) => (x - p.1) / p.2) r (ms.zip sds))

/-- Step 2: `X = scale(X, weights=row_marginals, ddof=0)`. -/
def xStandardized (env : NumericEnv) (Y X : QMat) : QMat :=
  scaleTable env (rowMarginals Y) (nColsOf X) X

/-- Step 3: `X_weighted = row_marginals[:, None]**0.5 * X`. -/
def xWeighted (env : NumericEnv) (Y X : QMat) : QMat :=
  rowScale ((rowMarginals Y).map env.sqrt) (xStandardized env Y X)

/-- `Y_hat = X_weighted.dot(B)` with `B` from the least-squares black box. -/
def yHat (env : NumericEnv) (la : LinAlgOut) (Y X : QMat) : QMat :=
  matMulN (nColsOf Y) (xWeighted env Y X) la.B

/-- `Y_res = Q_bar - Y_hat`. -/
def yRes (env : NumericEnv) (la : LinAlgOut) (Y X : QMat) : QMat :=
  matSub (qbar env Y) (yHat env la Y X)

/-- Modelled from the spec: `skbio.stats.ordination._utils.svd_rank` is
absent from the sources.  Spec §4.1: "determine how many [singular values]
are distinguishable from numerical noise using a tolerance ...; singular
values at or below the tolerance are dropped". -/
def svdRank (tol : ℚ) (s : List ℚ) : ℕ := s.countP (fun x => decide (tol < x))

/-- Pearson correlation of two columns; the spec fixes no variance
convention, so the population one (matching `scale`) is used. -/
def pearson (env : NumericEnv) (a b : List ℚ) : ℚ :=
  let n : ℚ := (a.length : ℚ)
  let am := a.sum / n
  let bm := b.sum / n
  (List.zipWith (fun x y => (x - am) * (y - bm)) a b).sum /
    (env.sqrt ((a.map (fun x => (x - am) ^ 2)).sum) *
      env.sqrt ((b.map (fun y => (y - bm) ^ 2)).sum))

/-- Modelled from the spec: `skbio.stats.ordination._utils.corr` is absent
from the sources.  Spec §4.1: "Pearson correlation between each column of a
weighted table and each column of another table"; `qa` and `qb` are the
column counts of the two tables. -/
def corr (env : NumericEnv) (qa qb : ℕ) (A B : QMat) : QMat :=
  (transposeN qa A).map (fun ca => (transposeN qb B).map (fun cb => pearson env ca cb))

/-- The numerical payload of the `OrdinationResults` returned by `cca`:
the arrays computed at source lines 150–214 and the proportion of explained
variance of line 226 (the identifier-labelling wrappers of lines 216–220 are
embedded separately, see `samplesTable`). -/
structure CcaResult : Type where
  eigenvalues : List ℚ
  species_scores : QMat
  site_scores : QMat
  site_constraints : QMat
  biplot_scores : QMat
  proportion_explained : List ℚ
deriving DecidableEq

/-- Step 4 (line 152): the effective rank of `Y_hat`'s decomposition. -/
def fitRank (env : NumericEnv) (la : LinAlgOut) : ℕ := svdRank env.tol la.fit.s

/-- Line 163: the effective rank of `Y_res`'s decomposition. -/
def resRank (env : NumericEnv) (la : LinAlgOut) : ℕ := svdRank env.tol la.res.s

/-- Line 153: `s = s[:rank]`. -/
def sT (env : NumericEnv) (la : LinAlgOut) : List ℚ := la.fit.s.take (fitRank env la)

/-- Line 154: `u = u[:, :rank]`. -/
def uT (env : NumericEnv) (la : LinAlgOut) : QMat := takeCols (fitRank env la) la.fit.u

/-- Line 155: `vt = vt[:rank]`. -/
def vtT (env : NumericEnv) (la : LinAlgOut) : QMat := la.fit.vt.take (fitRank env la)

/-- Line 156: `U = vt.T` (`m` columns of `Y` become the rows of `U`). -/
def Umat (env : NumericEnv) (la : LinAlgOut) (Y : QMat) : QMat :=
  transposeN (nColsOf Y) (vtT env la)

/-- Line 159, eq. 9.38: `U_hat = Q_bar.dot(U) * s**-1`; since `U = vt.T`,
the product `Q_bar.dot(U)` is `mulT Q_bar vt`. -/
def UhatMat (env : NumericEnv) (la : LinAlgOut) (Y : QMat) : QMat :=
  colMul (mulT (qbar env Y) (vtT env la)) ((sT env la).map (fun x => x⁻¹))

/-- Line 164: `s_res = s_res[:rank]`. -/
def srT (env : NumericEnv) (la : LinAlgOut) : List ℚ := la.res.s.take (resRank env la)

/-- Line 166: `vt_res = vt_res[:rank]`. -/
def vtrT (env : NumericEnv) (la : LinAlgOut) : QMat := la.res.vt.take (resRank env la)

/-- Line 168: `U_res = vt_res.T`. -/
def UresMat (env : NumericEnv) (la : LinAlgOut) (Y : QMat) : QMat :=
  transposeN (nColsOf Y) (vtrT env la)

/-- Line 169: `U_hat_res = Y_res.dot(U_res) * s_res**-1`. -/
def UhatResMat (env : NumericEnv) (la : LinAlgOut) (Y X : QMat) : QMat :=
  colMul (mulT (yRes env la Y X) (vtrT env la)) ((srT env la).map (fun x => x⁻¹))

/-- Line 171: `eigenvalues = np.r_[s, s_res]**2`. -/
def eigenvaluesOf (env : NumericEnv) (la : LinAlgOut) : List ℚ :=
  (sT env la ++ srT env la).map (fun x => x ^ 2)

/-- `row_marginals**-0.5`, the per-sample scaling weights. -/
def rmInvSqrt (env : NumericEnv) (Y : QMat) : List ℚ :=
  (rowMarginals Y).map (fun r => (env.sqrt r)⁻¹)

/-- `column_marginals**-0.5`, the per-feature scaling weights. -/
def cmInvSqrt (env : NumericEnv) (Y : QMat) : List ℚ :=
  (colMarginals Y).map (fun c => (env.sqrt c)⁻¹)

/-- Line 175: feature scores, scaling 1: `V = cm**-0.5 [:, None] * U`. -/
def Vmat (env : NumericEnv) (la : LinAlgOut) (Y : QMat) : QMat :=
  rowScale (cmInvSqrt env Y) (Umat env la Y)

/-- Line 178: sample scores, scaling 2: `V_hat = rm**-0.5 [:, None] * U_hat`. -/
def VhatMat (env : NumericEnv) (la : LinAlgOut) (Y : QMat) : QMat :=
  rowScale (rmInvSqrt env Y) (UhatMat env la Y)

/-- Line 181: sample scores, scaling 1: `F = V_hat * s`. -/
def Fmat (env : NumericEnv) (la : LinAlgOut) (Y : QMat) : QMat :=
  colMul (VhatMat env la Y) (sT env la)

/-- Line 184: feature scores, scaling 2: `F_hat = V * s`. -/
def FhatMat (env : NumericEnv) (la : LinAlgOut) (Y : QMat) : QMat :=
  colMul (Vmat env la Y) (sT env la)

/-- Lines 188–189: `Z_scaling1 = rm**-0.5 [:, None] * Y_hat.dot(U)`. -/
def Z1mat (env : NumericEnv) (la : LinAlgOut) (Y X : QMat) : QMat :=
  rowScale (rmInvSqrt env Y) (mulT (yHat env la Y X) (vtT env la))

/-- Line 190: `Z_scaling2 = Z_scaling1 * s**-1`. -/
def Z2mat (env : NumericEnv) (la : LinAlgOut) (Y X : QMat) : QMat :=
  colMul (Z1mat env la Y X) ((sT env la).map (fun x => x⁻¹))

/-- Line 193: `V_res = cm**-0.5 [:, None] * U_res`. -/
def VresMat (env : NumericEnv) (la : LinAlgOut) (Y : QMat) : QMat :=
  rowScale (cmInvSqrt env Y) (UresMat env la Y)

/-- Line 196: `V_hat_res = rm**-0.5 [:, None] * U_hat_res`. -/
def VhatResMat (env : NumericEnv) (la : LinAlgOut) (Y X : QMat) : QMat :=
  rowScale (rmInvSqrt env Y) (UhatResMat env la Y X)

/-- Line 199: `F_res = V_hat_res * s_res`. -/
def FresMat (env : NumericEnv) (la : LinAlgOut) (Y X : QMat) : QMat :=
  colMul (VhatResMat env la Y X) (srT env la)

/-- Line 202: `F_hat_res = V_res * s_res`. -/
def FhatResMat (env : NumericEnv) (la : LinAlgOut) (Y : QMat) : QMat :=
  colMul (VresMat env la Y) (srT env la)

/-- Line 214: `biplot_scores = corr(X_weighted, u)` with the truncated `u`. -/
def biplotOf (env : NumericEnv) (la : LinAlgOut) (Y X : QMat) : QMat :=
  corr env (nColsOf X) (fitRank env la) (xWeighted env Y X) (uT env la)

/-- Line 226: `proportion_explained = eigvals / eigvals.sum()`. -/
def propExplainedOf (env : NumericEnv) (la : LinAlgOut) : List ℚ :=
  (eigenvaluesOf env la).map (fun e => e / (eigenvaluesOf env la).sum)

/-- The computation performed by `cca` after the sanity checks (source lines
125–226), assembled from the named intermediates above.  `env` abstracts
square root and rank tolerance, `la` carries the outputs of the
least-squares and SVD black boxes.  Only called with `scaling ∈ {1, 2}`
(enforced by `validate`); the `else` branch is the source's
`elif scaling == 2`. -/
def cca (env : NumericEnv) (la : LinAlgOut) (Y X : QMat) (scaling : ℤ) : CcaResult :=
  if scaling = 1 then
    { eigenvalues := eigenvaluesOf env la
      species_scores := hstack (Vmat env la Y) (VresMat env la Y)
      site_scores := hstack (Fmat env la Y) (FresMat env la Y X)
      site_constraints := hstack (Z1mat env la Y X) (FresMat env la Y X)
      biplot_scores := biplotOf env la Y X
      proportion_explained := propExplainedOf env la }
  else
    { eigenvalues := eigenvaluesOf env la
      species_scores := hstack (FhatMat env la Y) (FhatResMat env la Y)
      site_scores := hstack (VhatMat env la Y) (VhatResMat env la Y X)
      site_constraints := hstack (Z2mat env la Y X) (VhatResMat env la Y X)
      biplot_scores := biplotOf env la Y X
      proportion_explained := propExplainedOf env la }

/-- The full entry point: the sanity checks of lines 107–123 followed by the
computation; an error raised by a check aborts the call. -/
def ccaE (env : NumericEnv) (la : LinAlgOut) (Y X : QMat) (scaling : ℤ) :
    Except CcaError CcaResult :=
  match validate Y X scaling with
  | some e => .error e
  | none => .ok (cca env la Y X scaling)

/-- `true` iff the call returned a result rather than raising. -/
def isOkE : Except CcaError CcaResult → Bool
  | .ok _ => true
  | .error _ => false

/-- `u ⬝ diag s ⬝ vt` for an `SVDOut` whose `vt` has `m` columns: the matrix
a singular value decomposition reconstructs. -/
def svdRecon (m : ℕ) (sv : SVDOut) : QMat := matMulN m (colMul sv.u sv.s) sv.vt

/-- The normal equations `X_wᵀ X_w B = X_wᵀ Q_bar` characterising the
least-squares solutions `np.linalg.lstsq` minimises over (`X_w` is `n × q`,
`Q_bar` is `n × m`). -/
def lstsqNormalEq (m q : ℕ) (Xw B Qb : QMat) : Prop :=
  matMulN m (matMulN q (transposeN q Xw) Xw) B = matMulN m (transposeN q Xw) Qb

/-- The third sanity check fires iff some row of `Y` has maximum `≤ 0`. -/
theorem any_rowMax_iff (Y : QMat) :
    (Y.any (fun r => decide (rowMax r ≤ 0)) = true) ↔ ∃ r ∈ Y, rowMax r ≤ 0 := by
  simp [List.any_eq_true]

/-- The sanity-check block returns an error iff one of its four conditions
holds. -/
theorem validate_isSome_iff (Y X : QMat) (scaling : ℤ) :
    (validate Y X scaling).isSome = true ↔
      (X.length ≠ Y.length ∨ (∃ r ∈ Y, ∃ v ∈ r, v < 0) ∨
        (∃ r ∈ Y, rowMax r ≤ 0) ∨ (scaling ≠ 1 ∧ scaling ≠ 2)) := by
  unfold validate
  split_ifs with h1 h2 h3 h4
  · simpa using Or.inl h1
  · simpa using Or.inr (Or.inl ((matMin_neg_iff Y).mp h2))
  · simpa using Or.inr (Or.inr (Or.inl ((any_rowMax_iff Y).mp h3)))
  · simpa using Or.inr (Or.inr (Or.inr h4))
  · simp only [Option.isSome_none, Bool.false_eq_true, false_iff]
    push_neg at h1 h4
    rw [matMin_neg_iff] at h2
    rw [any_rowMax_iff] at h3
    rintro (h | h | h | h)
    · exact h h1
    · exact h2 h
    · exact h3 h
    · rcases h4 h.1 with rfl
      exact h.2 rfl

/-- C1.  `cca(Y, X, scaling)` fails before any computation if and only if
one of the four validation conditions holds: mismatching row counts, a
negative entry of `Y`, a row of `Y` with maximum entry `≤ 0`, or a scaling
outside `{1, 2}`; no other input condition (for every oracle output, hence
in particular for a collinear or rank-deficient `X`) is rejected. -/
theorem cca_fails_iff_validation (env : NumericEnv) (la : LinAlgOut)
    (Y X : QMat) (scaling : ℤ) :
    isOkE (ccaE env la Y X scaling) = false ↔
      (X.length ≠ Y.length ∨ (∃ r ∈ Y, ∃ v ∈ r, v < 0) ∨
        (∃ r ∈ Y, rowMax r ≤ 0) ∨ (scaling ≠ 1 ∧ scaling ≠ 2)) := by
  rw [← validate_isSome_iff Y X scaling]
  unfold ccaE
  cases h : validate Y X scaling <;> simp [isOkE, h]

/-- C10.  The sanity checks are applied in a fixed order: row-count
mismatch first, then a negative entry of `Y`, then an all-nonpositive row
of `Y`, and the unsupported-scaling error last; in particular a table with
a negative entry called with `scaling = 3` and matching row counts raises
the negative-abundance error, not the unsupported-scaling one. -/
theorem validate_check_order (Y X : QMat) (scaling : ℤ) :
    (X.length ≠ Y.length → validate Y X scaling = some .rowCountMismatch) ∧
    (X.length = Y.length → (∃ r ∈ Y, ∃ v ∈ r, v < 0) →
      validate Y X scaling = some .negativeAbundance) ∧
    (X.length = Y.length → (∀ r ∈ Y, ∀ v ∈ r, 0 ≤ v) → (∃ r ∈ Y, rowMax r ≤ 0) →
      validate Y X scaling = some .degenerateSampleRow) ∧
    (X.length = Y.length → (∀ r ∈ Y, ∀ v ∈ r, 0 ≤ v) → (∀ r ∈ Y, ¬ rowMax r ≤ 0) →
      scaling ≠ 1 → scaling ≠ 2 → validate Y X scaling = some .unsupportedScaling) ∧
    (X.length = Y.length → (∃ r ∈ Y, ∃ v ∈ r, v < 0) →
      validate Y X 3 = some .negativeAbundance) := by
  have hneg : ∀ (sc : ℤ), X.length = Y.length → (∃ r ∈ Y, ∃ v ∈ r, v < 0) →
      validate Y X sc = some .negativeAbundance := by
    intro sc hlen hex
    unfold validate
    rw [if_neg (by simpa using hlen), if_pos ((matMin_neg_iff Y).mpr hex)]
  refine ⟨?_, hneg scaling, ?_, ?_, hneg 3⟩
  · intro hlen
    unfold validate
    rw [if_pos hlen]
  · intro hlen hnn hex
    have hmin : ¬ matMin Y < 0 := by
      rw [matMin_neg_iff]
      rintro ⟨r, hr, v, hv, hvneg⟩
      exact absurd (hnn r hr v hv) (not_le.mpr hvneg)
    unfold validate
    rw [if_neg (by simpa using hlen), if_neg hmin, if_pos ((any_rowMax_iff Y).mpr hex)]
  · intro hlen hnn hrows h1 h2
    have hmin : ¬ matMin Y < 0 := by
      rw [matMin_neg_iff]
      rintro ⟨r, hr, v, hv, hvneg⟩
      exact absurd (hnn r hr v hv) (not_le.mpr hvneg)
    have hany : ¬ Y.any (fun r => decide (rowMax r ≤ 0)) = true := by
      rw [any_rowMax_iff]
      rintro ⟨r, hr, hle⟩
      exact hrows r hr hle
    unfold validate
    rw [if_neg (by simpa using hlen), if_neg hmin, if_neg hany, if_pos ⟨h1, h2⟩]

/-- Witness for C10: a table containing `-1` with matching row counts and
`scaling = 3` raises the negative-abundance error rather than the
unsupported-scaling one. -/
theorem validate_check_order_witness :
    validate [[-1, 2]] [[5]] 3 = some .negativeAbundance :=
  (validate_check_order [[-1, 2]] [[5]] 3).2.2.2.2 rfl
    ⟨[-1, 2], by simp, -1, by simp, by norm_num⟩

section ShapeLemmas

/-- Every element of a `zipWith` comes from a pair of elements of the two
lists. -/
theorem exists_of_mem_zipWith {α β γ : Type} {f : α → β → γ} :
    ∀ {l1 : List α} {l2 : List β} {x : γ}, x ∈ List.zipWith f l1 l2 →
      ∃ a ∈ l1, ∃ b ∈ l2, x = f a b
  | [], l2, x, h => by simp at h
  | a :: t1, [], x, h => by simp at h
  | a :: t1, b :: t2, x, h => by
    rcases List.mem_cons.mp h with rfl | h
    · exact ⟨a, List.mem_cons_self a t1, b, List.mem_cons_self b t2, rfl⟩
    · rcases exists_of_mem_zipWith h with ⟨a', ha, b', hb, rfl⟩
      exact ⟨a', List.mem_cons_of_mem _ ha, b', List.mem_cons_of_mem _ hb, rfl⟩

/-- Every row of `M` has length `k`. -/
def ColsEq (k : ℕ) (M : QMat) : Prop := ∀ r ∈ M, r.length = k

theorem colsEq_mulT (A Bt : QMat) : ColsEq Bt.length (mulT A Bt) := by
  intro r hr
  rcases List.mem_map.mp hr with ⟨ar, _, rfl⟩
  simp

theorem colsEq_transposeN (m : ℕ) (M : QMat) : ColsEq M.length (transposeN m M) := by
  intro r hr
  rcases List.mem_map.mp hr with ⟨j, _, rfl⟩
  simp

theorem length_transposeN (m : ℕ) (M : QMat) : (transposeN m M).length = m := by
  simp [transposeN]

theorem colsEq_rowScale {k : ℕ} {A : QMat} (h : ColsEq k A) (w : List ℚ) :
    ColsEq k (rowScale w A) := by
  intro r hr
  rcases exists_of_mem_zipWith hr with ⟨wi, _, row, hrow, rfl⟩
  simpa using h row hrow

theorem colsEq_colMul {k : ℕ} {A : QMat} (h : ColsEq k A) (s : List ℚ) :
    ColsEq (min k s.length) (colMul A s) := by
  intro r hr
  rcases List.mem_map.mp hr with ⟨row, hrow, rfl⟩
  simp [h row hrow]

theorem colsEq_hstack {k1 k2 : ℕ} {A B : QMat} (hA : ColsEq k1 A) (hB : ColsEq k2 B) :
    ColsEq (k1 + k2) (hstack A B) := by
  intro r hr
  rcases exists_of_mem_zipWith hr with ⟨ra, hra, rb, hrb, rfl⟩
  simp [hA ra hra, hB rb hrb]

end ShapeLemmas

section RankLemmas

/-- The effective rank never exceeds the number of singular values. -/
theorem svdRank_le_length (tol : ℚ) (s : List ℚ) : svdRank tol s ≤ s.length :=
  List.countP_le_length _

/-- The truncated singular value list has exactly `svdRank` entries. -/
theorem length_take_svdRank (tol : ℚ) (s : List ℚ) :
    (s.take (svdRank tol s)).length = svdRank tol s := by
  simp [List.length_take, Nat.min_eq_left (svdRank_le_length tol s)]

end RankLemmas

section IntermediateShapes

variable (env : NumericEnv) (la : LinAlgOut) (Y X : QMat)

theorem length_sT : (sT env la).length = fitRank env la :=
  length_take_svdRank _ _

theorem length_srT : (srT env la).length = resRank env la :=
  length_take_svdRank _ _

theorem length_vtT (hfit : la.fit.vt.length = la.fit.s.length) :
    (vtT env la).length = fitRank env la := by
  simp only [vtT, List.length_take, hfit]
  exact Nat.min_eq_left (svdRank_le_length _ _)

theorem length_vtrT (hres : la.res.vt.length = la.res.s.length) :
    (vtrT env la).length = resRank env la := by
  simp only [vtrT, List.length_take, hres]
  exact Nat.min_eq_left (svdRank_le_length _ _)

theorem colsEq_UhatMat (hfit : la.fit.vt.length = la.fit.s.length) :
    ColsEq (fitRank env la) (UhatMat env la Y) := by
  have h := colsEq_colMul (colsEq_mulT (qbar env Y) (vtT env la))
      ((sT env la).map (fun x => x⁻¹))
  rwa [length_vtT env la hfit, List.length_map, length_sT, Nat.min_self] at h

theorem colsEq_VhatMat (hfit : la.fit.vt.length = la.fit.s.length) :
    ColsEq (fitRank env la) (VhatMat env la Y) :=
  colsEq_rowScale (colsEq_UhatMat env la Y hfit) _

theorem colsEq_Fmat (hfit : la.fit.vt.length = la.fit.s.length) :
    ColsEq (fitRank env la) (Fmat env la Y) := by
  have h := colsEq_colMul (colsEq_VhatMat env la Y hfit) (sT env la)
  rwa [length_sT, Nat.min_self] at h

theorem colsEq_Umat (hfit : la.fit.vt.length = la.fit.s.length) :
    ColsEq (fitRank env la) (Umat env la Y) := by
  have h := colsEq_transposeN (nColsOf Y) (vtT env la)
  rwa [length_vtT env la hfit] at h

theorem colsEq_Vmat (hfit : la.fit.vt.length = la.fit.s.length) :
    ColsEq (fitRank env la) (Vmat env la Y) :=
  colsEq_rowScale (colsEq_Umat env la Y hfit) _

theorem colsEq_FhatMat (hfit : la.fit.vt.length = la.fit.s.length) :
    ColsEq (fitRank env la) (FhatMat env la Y) := by
  have h := colsEq_colMul (colsEq_Vmat env la Y hfit) (sT env la)
  rwa [length_sT, Nat.min_self] at h

theorem colsEq_Z1mat (hfit : la.fit.vt.length = la.fit.s.length) :
    ColsEq (fitRank env la) (Z1mat env la Y X) := by
  have h := colsEq_rowScale (colsEq_mulT (yHat env la Y X) (vtT env la)) (rmInvSqrt env Y)
  rwa [length_vtT env la hfit] at h

theorem colsEq_Z2mat (hfit : la.fit.vt.length = la.fit.s.length) :
    ColsEq (fitRank env la) (Z2mat env la Y X) := by
  have h := colsEq_colMul (colsEq_Z1mat env la Y X hfit) ((sT env la).map (fun x => x⁻¹))
  rwa [List.length_map, length_sT, Nat.min_self] at h

theorem colsEq_UhatResMat (hres : la.res.vt.length = la.res.s.length) :
    ColsEq (resRank env la) (UhatResMat env la Y X) := by
  have h := colsEq_colMul (colsEq_mulT (yRes env la Y X) (vtrT env la))
      ((srT env la).map (fun x => x⁻¹))
  rwa [length_vtrT env la hres, List.length_map, length_srT, Nat.min_self] at h

theorem colsEq_VhatResMat (hres : la.res.vt.length = la.res.s.length) :
    ColsEq (resRank env la) (VhatResMat env la Y X) :=
  colsEq_rowScale (colsEq_UhatResMat env la Y X hres) _

theorem colsEq_FresMat (hres : la.res.vt.length = la.res.s.length) :
    ColsEq (resRank env la) (FresMat env la Y X) := by
  have h := colsEq_colMul (colsEq_VhatResMat env la Y X hres) (srT env la)
  rwa [length_srT, Nat.min_self] at h

theorem colsEq_UresMat (hres : la.res.vt.length = la.res.s.length) :
    ColsEq (resRank env la) (UresMat env la Y) := by
  have h := colsEq_transposeN (nColsOf Y) (vtrT env la)
  rwa [length_vtrT env la hres] at h

theorem colsEq_VresMat (hres : la.res.vt.length = la.res.s.length) :
    ColsEq (resRank env la) (VresMat env la Y) :=
  colsEq_rowScale (colsEq_UresMat env la Y hres) _

theorem colsEq_FhatResMat (hres : la.res.vt.length = la.res.s.length) :
    ColsEq (resRank env la) (FhatResMat env la Y) := by
  have h := colsEq_colMul (colsEq_VresMat env la Y hres) (srT env la)
  rwa [length_srT, Nat.min_self] at h

theorem length_eigenvaluesOf :
    (eigenvaluesOf env la).length = fitRank env la + resRank env la := by
  simp [eigenvaluesOf, length_sT, length_srT]

end IntermediateShapes

/-- A scaling accepted by the sanity checks is `1` or `2`. -/
theorem validate_none_scaling {Y X : QMat} {scaling : ℤ}
    (h : validate Y X scaling = none) : scaling = 1 ∨ scaling = 2 := by
  by_contra hc
  push_neg at hc
  unfold validate at h
  split_ifs at h

/-- C2.  For every input accepted by validation, the eigenvalue sequence is
the concatenation `[s², s_res²]` of the squared truncated singular values,
its length is `rank_fit + rank_res`, and it equals the column count of both
the sample-score and the feature-score tables. -/
theorem cca_shape_invariants (env : NumericEnv) (la : LinAlgOut) (Y X : QMat)
    (scaling : ℤ) (hval : validate Y X scaling = none)
    (hfit : la.fit.vt.length = la.fit.s.length)
    (hres : la.res.vt.length = la.res.s.length) :
    (cca env la Y X scaling).eigenvalues =
        (sT env la ++ srT env la).map (fun x => x ^ 2) ∧
      (cca env la Y X scaling).eigenvalues.length = fitRank env la + resRank env la ∧
      (∀ r ∈ (cca env la Y X scaling).site_scores,
        r.length = (cca env la Y X scaling).eigenvalues.length) ∧
      (∀ r ∈ (cca env la Y X scaling).species_scores,
        r.length = (cca env la Y X scaling).eigenvalues.length) := by
  have hlen : (eigenvaluesOf env la).length = fitRank env la + resRank env la :=
    length_eigenvaluesOf env la
  rcases validate_none_scaling hval with rfl | rfl
  · rw [show cca env la Y X 1 = _ from if_pos rfl]
    refine ⟨rfl, hlen, ?_, ?_⟩
    · intro r hr
      rw [hlen]
      exact colsEq_hstack (colsEq_Fmat env la Y hfit) (colsEq_FresMat env la Y X hres) r hr
    · intro r hr
      rw [hlen]
      exact colsEq_hstack (colsEq_Vmat env la Y hfit) (colsEq_VresMat env la Y hres) r hr
  · rw [show cca env la Y X 2 = _ from if_neg (by norm_num)]
    refine ⟨rfl, hlen, ?_, ?_⟩
    · intro r hr
      rw [hlen]
      exact colsEq_hstack (colsEq_VhatMat env la Y hfit)
        (colsEq_VhatResMat env la Y X hres) r hr
    · intro r hr
      rw [hlen]
      exact colsEq_hstack (colsEq_FhatMat env la Y hfit)
        (colsEq_FhatResMat env la Y hres) r hr

/-- Column-wise multiplication distributes over `hstack` when the factor
vector splits at the column count of the left block. -/
theorem colMul_hstack (sa sb : List ℚ) :
    ∀ (A B : QMat), (∀ r ∈ A, r.length = sa.length) →
      colMul (hstack A B) (sa ++ sb) = hstack (colMul A sa) (colMul B sb)
  | [], B, _ => by simp [colMul, hstack]
  | a :: A', [], _ => by simp [colMul, hstack]
  | a :: A', b :: B', hA => by
    have ha : a.length = sa.length := hA a (List.mem_cons_self a A')
    have ih := colMul_hstack sa sb A' B' (fun r hr => hA r (List.mem_cons_of_mem _ hr))
    simp only [hstack, colMul, List.zipWith_cons_cons, List.map_cons] at ih ⊢
    rw [List.zipWith_append _ _ _ _ _ ha, ih]

/-- C3.  Scaling duality: for the same valid input the two scaling
conventions differ axis-wise by the singular values — the scaling-1 site
scores are the scaling-2 site scores multiplied column-wise by `s`
(`s_res` on the residual block), and the scaling-2 species scores are the
scaling-1 species scores multiplied column-wise by the same vector. -/
theorem cca_scaling_duality (env : NumericEnv) (la : LinAlgOut) (Y X : QMat)
    (hval : validate Y X 1 = none)
    (hfit : la.fit.vt.length = la.fit.s.length)
    (hres : la.res.vt.length = la.res.s.length) :
    (cca env la Y X 1).site_scores =
        colMul ((cca env la Y X 2).site_scores) (sT env la ++ srT env la) ∧
      (cca env la Y X 2).species_scores =
        colMul ((cca env la Y X 1).species_scores) (sT env la ++ srT env la) := by
  have h1 : cca env la Y X 1 = _ := if_pos rfl
  have h2 : cca env la Y X 2 = _ := if_neg (by norm_num)
  rw [h1, h2]
  constructor
  · have hA : ∀ r ∈ VhatMat env la Y, r.length = (sT env la).length := by
      intro r hr
      rw [length_sT]
      exact colsEq_VhatMat env la Y hfit r hr
    rw [colMul_hstack _ _ _ _ hA]
    rfl
  · have hA : ∀ r ∈ Vmat env la Y, r.length = (sT env la).length := by
      intro r hr
      rw [length_sT]
      exact colsEq_Vmat env la Y hfit r hr
    rw [colMul_hstack _ _ _ _ hA]
    rfl

/-- Squaring preserves the non-increasing order of a non-negative list. -/
theorem pairwise_sq_of_sorted {l : List ℚ}
    (hs : l.Pairwise (fun a b => b ≤ a)) (hnn : ∀ x ∈ l, 0 ≤ x) :
    (l.map (fun x => x ^ 2)).Pairwise (fun a b => b ≤ a) := by
  rw [List.pairwise_map]
  exact List.Pairwise.imp_of_mem
    (fun ha hb hr => pow_le_pow_left₀ (hnn _ hb) hr 2) hs

/-- C5.  The fitted-block prefix of the returned eigenvalues is
non-increasing and the residual-block suffix is independently
non-increasing, given that each decomposition delivers its singular values
in descending non-negative order. -/
theorem cca_eigen_blocks_monotone (env : NumericEnv) (la : LinAlgOut)
    (Y X : QMat) (scaling : ℤ) (hval : validate Y X scaling = none)
    (hsf : la.fit.s.Pairwise (fun a b => b ≤ a)) (hnf : ∀ x ∈ la.fit.s, 0 ≤ x)
    (hsr : la.res.s.Pairwise (fun a b => b ≤ a)) (hnr : ∀ x ∈ la.res.s, 0 ≤ x) :
    ((cca env la Y X scaling).eigenvalues.take (fitRank env la)).Pairwise
        (fun a b => b ≤ a) ∧
      ((cca env la Y X scaling).eigenvalues.drop (fitRank env la)).Pairwise
        (fun a b => b ≤ a) := by
  have heig : (cca env la Y X scaling).eigenvalues =
      (sT env la ++ srT env la).map (fun x => x ^ 2) := by
    unfold cca
    split <;> rfl
  have htake : (cca env la Y X scaling).eigenvalues.take (fitRank env la) =
      (sT env la).map (fun x => x ^ 2) := by
    rw [heig, ← List.map_take, ← length_sT env la, List.take_left]
  have hdrop : (cca env la Y X scaling).eigenvalues.drop (fitRank env la) =
      (srT env la).map (fun x => x ^ 2) := by
    rw [heig, ← List.map_drop, ← length_sT env la, List.drop_left]
  constructor
  · rw [htake]
    exact pairwise_sq_of_sorted
      (hsf.sublist (List.take_sublist _ _))
      (fun x hx => hnf x (List.take_subset _ _ hx))
  · rw [hdrop]
    exact pairwise_sq_of_sorted
      (hsr.sublist (List.take_sublist _ _))
      (fun x hx => hnr x (List.take_subset _ _ hx))

/-- Whatever the scaling branch, the eigenvalue field is `eigenvaluesOf`. -/
theorem cca_eigenvalues_eq (env : NumericEnv) (la : LinAlgOut) (Y X : QMat)
    (scaling : ℤ) : (cca env la Y X scaling).eigenvalues = eigenvaluesOf env la := by
  unfold cca
  split <;> rfl

/-- Whatever the scaling branch, the proportion field is `propExplainedOf`. -/
theorem cca_prop_eq (env : NumericEnv) (la : LinAlgOut) (Y X : QMat)
    (scaling : ℤ) :
    (cca env la Y X scaling).proportion_explained = propExplainedOf env la := by
  unfold cca
  split <;> rfl

/-- Dividing every entry by a constant divides the sum. -/
theorem sum_map_div (l : List ℚ) (c : ℚ) :
    (l.map (fun e => e / c)).sum = l.sum / c := by
  induction l with
  | nil => simp
  | cons a t ih => simp [ih, div_add_div_same]

/-- C4 (amended).  For every valid input whose retained eigenvalue sum is
nonzero (equivalently, whose total retained rank is positive),
`proportion_explained` is the eigenvalue sequence divided entrywise by its
sum, has the same length as `eigenvalues`, and sums exactly to `1`; when
both decompositions have rank zero it is empty and sums to `0`, not `1`. -/
theorem cca_proportion_explained (env : NumericEnv) (la : LinAlgOut)
    (Y X : QMat) (scaling : ℤ) (hval : validate Y X scaling = none)
    (hsum : (cca env la Y X scaling).eigenvalues.sum ≠ 0) :
    (cca env la Y X scaling).proportion_explained =
        (cca env la Y X scaling).eigenvalues.map
          (fun e => e / (cca env la Y X scaling).eigenvalues.sum) ∧
      (cca env la Y X scaling).proportion_explained.length =
        (cca env la Y X scaling).eigenvalues.length ∧
      (cca env la Y X scaling).proportion_explained.sum = 1 := by
  rw [cca_prop_eq, cca_eigenvalues_eq] at *
  refine ⟨rfl, by simp [propExplainedOf], ?_⟩
  rw [propExplainedOf, sum_map_div]
  exact div_self hsum

/-- C7 (amended).  After the sanity checks pass, `cca` always returns a
result: there is no rank-zero abort, and a fitted decomposition of
effective rank zero is silently coerced to an empty fitted block (the
eigenvalues reduce to the residual ones). -/
theorem ccaE_total_after_validation (env : NumericEnv) (la : LinAlgOut)
    (Y X : QMat) (scaling : ℤ) (hval : validate Y X scaling = none) :
    ccaE env la Y X scaling = .ok (cca env la Y X scaling) ∧
      (fitRank env la = 0 → (cca env la Y X scaling).eigenvalues =
        (srT env la).map (fun x => x ^ 2)) := by
  constructor
  · unfold ccaE
    rw [hval]
  · intro h0
    rw [cca_eigenvalues_eq]
    unfold eigenvaluesOf sT
    rw [h0]
    simp

section DegenerateInstance

/-- A valid abundance table with identical rows: its standardized residual
table `Q_bar` is exactly zero, so both decompositions have all-zero
singular values and effective rank zero. -/
def degY : QMat := [[1, 1], [1, 1]]

/-- A matching constraint table for `degY`. -/
def degX : QMat := [[1], [-1]]

/-- Concrete environment for the degenerate run (any square root works,
the tolerance is the infimum `0`). -/
def degEnv : NumericEnv := { sqrt := fun q => q, tol := 0 }

/-- Oracle outputs for the degenerate run: `Q_bar = 0` forces `B = 0`,
`Y_hat = 0`, `Y_res = 0`, whose (exact) SVDs have `s = [0, 0]` with
orthonormal `u` and `vt`; the reconstruction and normal-equation facts are
checked in the counterexample theorems below. -/
def degLa : LinAlgOut :=
  { B := [[0, 0]]
    fit := { u := [[1, 0], [0, 1]], s := [0, 0], vt := [[1, 0], [0, 1]] }
    res := { u := [[1, 0], [0, 1]], s := [0, 0], vt := [[1, 0], [0, 1]] } }

end DegenerateInstance

/-- Counterexample to C4 as stated: the degenerate input passes validation
and its oracle data is a genuine decomposition (reconstruction, normal
equations and shapes all hold), yet `proportion_explained` is empty, so its
entries sum to `0`, not `1`. -/
theorem cca_proportion_counterexample :
    validate degY degX 1 = none ∧
      svdRecon 2 degLa.fit = yHat degEnv degLa degY degX ∧
      svdRecon 2 degLa.res = yRes degEnv degLa degY degX ∧
      lstsqNormalEq 2 1 (xWeighted degEnv degY degX) degLa.B (qbar degEnv degY) ∧
      degLa.fit.vt.length = degLa.fit.s.length ∧
      degLa.res.vt.length = degLa.res.s.length ∧
      (cca degEnv degLa degY degX 1).proportion_explained = [] ∧
      (cca degEnv degLa degY degX 1).proportion_explained.sum ≠ 1 := by
  refine ⟨by decide, by with_unfolding_all rfl, by with_unfolding_all rfl,
    by with_unfolding_all rfl, rfl, rfl, by with_unfolding_all rfl, ?_⟩
  have hp : (cca degEnv degLa degY degX 1).proportion_explained = [] := by
    with_unfolding_all rfl
  rw [hp]
  norm_num

section NonDegenerateInstance

/-- A small valid abundance table used by the witnesses. -/
def niceY : QMat := [[1, 2], [2, 1]]

/-- A matching constraint table for `niceY`. -/
def niceX : QMat := [[1], [-1]]

/-- Concrete environment for the witness runs. -/
def niceEnv : NumericEnv := { sqrt := fun q => q, tol := 0 }

/-- Concrete well-shaped oracle outputs for the witness runs: descending
positive singular values, `vt` with as many rows as singular values. -/
def niceLa : LinAlgOut :=
  { B := [[0, 0]]
    fit := { u := [[1, 0], [0, 1]], s := [2, 1], vt := [[1, 0], [0, 1]] }
    res := { u := [[1], [0]], s := [1 / 2], vt := [[1, 0]] } }

end NonDegenerateInstance

/-- Witness for C4 (amended): on a non-degenerate concrete run the
proportions sum to `1`. -/
theorem cca_proportion_explained_witness :
    (cca niceEnv niceLa niceY niceX 1).proportion_explained.sum = 1 := by
  have hsum : (cca niceEnv niceLa niceY niceX 1).eigenvalues.sum = 21 / 4 := by
    with_unfolding_all rfl
  exact (cca_proportion_explained niceEnv niceLa niceY niceX 1 (by decide)
    (by rw [hsum]; norm_num)).2.2

/-- Counterexample to C7 as stated: on the degenerate input both
decomposition steps have effective rank zero (all singular values at the
tolerance), the oracle data is a genuine decomposition, and yet the call
returns a result instead of aborting. -/
theorem ccaE_rank_zero_counterexample :
    validate degY degX 1 = none ∧
      svdRecon 2 degLa.fit = yHat degEnv degLa degY degX ∧
      svdRecon 2 degLa.res = yRes degEnv degLa degY degX ∧
      lstsqNormalEq 2 1 (xWeighted degEnv degY degX) degLa.B (qbar degEnv degY) ∧
      fitRank degEnv degLa = 0 ∧ resRank degEnv degLa = 0 ∧
      isOkE (ccaE degEnv degLa degY degX 1) = true := by
  exact ⟨by decide, by with_unfolding_all rfl, by with_unfolding_all rfl,
    by with_unfolding_all rfl, by with_unfolding_all rfl, by with_unfolding_all rfl,
    by with_unfolding_all rfl⟩

/-- Witness for C7 (amended): a concrete validated call returns `.ok`. -/
theorem ccaE_total_after_validation_witness :
    ccaE degEnv degLa degY degX 2 = .ok (cca degEnv degLa degY degX 2) :=
  (ccaE_total_after_validation degEnv degLa degY degX 2 (by decide)).1

/-- Whatever the scaling branch, the biplot field is `biplotOf`. -/
theorem cca_biplot_eq (env : NumericEnv) (la : LinAlgOut) (Y X : QMat)
    (scaling : ℤ) : (cca env la Y X scaling).biplot_scores = biplotOf env la Y X := by
  unfold cca
  split <;> rfl

/-- C8.  The biplot scores are the (spec-modelled) weighted Pearson
correlation of the row-weighted constraint table with the truncated
fitted-block left singular vectors only: they are `corr(X_weighted, u)` for
the truncated `u` of `Y_hat`'s decomposition, and they are unchanged under
any change of the residual decomposition or of the regression
coefficients. -/
theorem cca_biplot_fitted_only (env : NumericEnv) (la la' : LinAlgOut)
    (Y X : QMat) (scaling : ℤ) (hval : validate Y X scaling = none)
    (hfitEq : la'.fit = la.fit) :
    (cca env la Y X scaling).biplot_scores =
        corr env (nColsOf X) (fitRank env la) (xWeighted env Y X) (uT env la) ∧
      (cca env la' Y X scaling).biplot_scores =
        (cca env la Y X scaling).biplot_scores := by
  refine ⟨by rw [cca_biplot_eq]; rfl, ?_⟩
  rw [cca_biplot_eq, cca_biplot_eq]
  simp only [biplotOf, uT, fitRank, hfitEq]

/-- Oracle outputs sharing the fitted decomposition of `niceLa` but with a
different residual decomposition and different regression coefficients. -/
def altLa : LinAlgOut :=
  { B := [[1, 1]]
    fit := niceLa.fit
    res := { u := [[0], [1]], s := [3], vt := [[0, 1]] } }

/-- Witness for C8: changing the residual decomposition and the regression
coefficients leaves the biplot scores of a concrete run unchanged. -/
theorem cca_biplot_fitted_only_witness :
    (cca niceEnv altLa niceY niceX 1).biplot_scores =
      (cca niceEnv niceLa niceY niceX 1).biplot_scores :=
  (cca_biplot_fitted_only niceEnv niceLa altLa niceY niceX 1 (by decide) rfl).2

/-- A pandas-style labelled table: a data block with a row `index` and
`columns` labels. -/
structure LabeledTable : Type where
  index : List String
  columns : List String
  data : QMat
deriving DecidableEq

/-- Embeds source line 217 as written:
`samples = pd.DataFrame(site_scores, columns=[], index=[])` — the row index
attached to the sample scores is the literal empty list, not the sample
identifiers of `y`.  (Lines 216–220 all pass `index=[]`/`columns=[]`, and
the block is itself broken Python: `pd` is never imported, line 220's
`index[]` is a syntax error, and line 224 references the undefined name
`feature`.) -/
def samplesTable (site_scores : QMat) : LabeledTable :=
  { index := [], columns := [], data := site_scores }

/-- C6 (code bug): the output wrapper discards the input identifiers — on a
concrete run the samples table is indexed by the empty list, not by the
sample identifiers. -/
theorem samplesTable_drops_ids :
    (samplesTable (cca niceEnv niceLa niceY niceX 1).site_scores).index = [] ∧
      (samplesTable (cca niceEnv niceLa niceY niceX 1).site_scores).index ≠
        ["Sample1", "Sample2"] :=
  ⟨rfl, by decide⟩

/-- Witness for C2: on a concrete validated run the eigenvalue count is the
sum of the two effective ranks. -/
theorem cca_shape_invariants_witness :
    validate niceY niceX 1 = none ∧
      (cca niceEnv niceLa niceY niceX 1).eigenvalues.length =
        fitRank niceEnv niceLa + resRank niceEnv niceLa :=
  ⟨by decide, (cca_shape_invariants niceEnv niceLa niceY niceX 1 (by decide) rfl rfl).2.1⟩

/-- Witness for C3: on a concrete validated run the scaling-1 site scores
are the scaling-2 site scores multiplied column-wise by the singular
values. -/
theorem cca_scaling_duality_witness :
    (cca niceEnv niceLa niceY niceX 1).site_scores =
      colMul ((cca niceEnv niceLa niceY niceX 2).site_scores)
        (sT niceEnv niceLa ++ srT niceEnv niceLa) :=
  (cca_scaling_duality niceEnv niceLa niceY niceX (by decide) rfl rfl).1

/-- Witness for C5: on a concrete run with descending non-negative singular
values the fitted block of the eigenvalues is non-increasing. -/
theorem cca_eigen_blocks_monotone_witness :
    ((cca niceEnv niceLa niceY niceX 1).eigenvalues.take
        (fitRank niceEnv niceLa)).Pairwise (fun a b => b ≤ a) :=
  (cca_eigen_blocks_monotone niceEnv niceLa niceY niceX 1 (by decide) (by decide)
    (by decide) (by decide) (by norm_num [niceLa])).1
